import Mathlib

/-!
# Verification of the Rune compiler pipeline against its specification

A shallow embedding of the parts of the Rune repository that the verified
claims concern:

* `src/syntax/src/yaml.rs` — the `Path` dependency locator (its `Display`
  rendering and `FromStr` regex parser), the surface `Document`/`Stage`/
  `Value` data model, the `From<Value> for ArgumentValue` argument lowering,
  and `Context::register_names`.
* `src/crates/compiler/src/codegen/generate_cargo_config.rs` — the
  `.cargo/config.toml` generator.
* `src/crates/compiler/src/codegen/generate_cargo_toml.rs` — the `Cargo.toml`
  manifest generator, proc-block dependency resolution and the
  `[patch]`-table override machinery.
* `src/crates/compiler/src/phases.rs` and
  `src/crates/compiler/src/build_context.rs` — the phase driver
  (`build` / `build_with_hooks`), hook short-circuiting and feature flags.

Conventions: Rust `String`/`PathBuf` become Lean `String` (a `PathBuf` join
is modelled as concatenation with a `/` separator, which is how `Path::join`
followed by `.display()` behaves on relative right-hand operands); `BTreeMap`
becomes a key-sorted association list with replace-on-insert; panics
(`unimplemented!`) and parse failures become `Option`/`none`; `f64` values
are carried as uninterpreted bit patterns (no claim inspects them).
-/

namespace Rune

/-! ## Path (src/syntax/src/yaml.rs, lines 51-167)

The Rust struct is

  pub struct Path { pub base: String, pub sub_path: Option<String>,
                    pub version: Option<String> }
-/

structure Path where
  base : String
  sub_path : Option String
  version : Option String
deriving DecidableEq, Repr

/-- Model of `impl Display for Path` (yaml.rs lines 88-106): writes `base`, then
`#sub_path` when present, then `@version` when present — in that order. -/
def Path.render (p : Path) : String :=
  let withSub :=
    match p.sub_path with
    | some sub => p.base ++ "#" ++ sub
    | none => p.base
  match p.version with
  | some version => withSub ++ "@" ++ version
  | none => withSub

/-- The regex crate's `\w` (word character), modelled on its ASCII fragment
`[A-Za-z0-9_]`.  (The `regex` crate's `\w` is Unicode-aware; every claim
settled here is decided on ASCII inputs, where the two agree.) -/
def wordChar (c : Char) : Bool :=
  c.isAlphanum || c == '_'

/-- Character class of the `base` capture group: `[\w\d:/_.-]`. -/
def baseChar (c : Char) : Bool :=
  wordChar c || c == ':' || c == '/' || c == '_' || c == '.' || c == '-'

/-- Character class of the `version` capture group: `[-\w\d./]`. -/
def versionChar (c : Char) : Bool :=
  wordChar c || c == '.' || c == '/' || c == '-'

/-- Character class of the `sub_path` capture group: `[-\w\d._/]`. -/
def subPathChar (c : Char) : Bool :=
  wordChar c || c == '.' || c == '_' || c == '/' || c == '-'

/-- One optional group `(?:SEP(?P<name>CLASS+))?` of the path regex, tried at
the current position: it participates in the match only when the separator is
present and is followed by at least one character of the class; otherwise it
matches the empty string and the position is unchanged.  (No backtracking
into the preceding greedy run is possible because every class excludes both
separators.) -/
def matchOptGroup (sep : Char) (cls : Char → Bool) :
    List Char → Option String × List Char
  | [] => (none, [])
  | c :: rest =>
    if c = sep ∧ rest.takeWhile cls ≠ [] then
      (some (String.mk (rest.takeWhile cls)), rest.dropWhile cls)
    else
      (none, c :: rest)

/-- The body of the path regex
`(?P<base>[\w\d:/_.-]+)(?:@(?P<version>[-\w\d./]+))?(?:\#(?P<sub_path>[-\w\d._/]+))?`
matched at a position whose first character is a `base` character: the greedy
`base` run, then the two optional groups in order. -/
def matchPathAt (cs : List Char) : Path :=
  let base := cs.takeWhile baseChar
  let rest := cs.dropWhile baseChar
  let (version, rest2) := matchOptGroup '@' versionChar rest
  let (sub_path, _) := matchOptGroup '#' subPathChar rest2
  { base := String.mk base, sub_path := sub_path, version := version }

/-- The suffix of the input starting at the leftmost position where the
regex can match, i.e. at the first `base`-class character.  (The pattern in
`impl FromStr for Path` is unanchored, so `Regex::captures` scans for the
leftmost match; the optional groups always succeed, so a match starts exactly
at the first `base` character.) -/
def findMatchStart : List Char → Option (List Char)
  | [] => none
  | c :: rest => if baseChar c then some (c :: rest) else findMatchStart rest

/-- Model of `impl FromStr for Path` (yaml.rs lines 108-136): run the unanchored regex
over the input; `None` models the `Err(PathParseError)` branch. -/
def Path.parse (s : String) : Option Path :=
  (findMatchStart s.data).map matchPathAt

/-- Written from the spec's words (§4.2), for comparison with `Path.parse`:
the *whole* of the input must match `base (@version)? (#sub_path)?` with the
ASCII classes base `[A-Za-z0-9:/._-]+`, version `[-A-Za-z0-9./]+`, sub_path
`[-A-Za-z0-9._/]+`.  Because the classes exclude `@` and `#`, the greedy
decomposition below is the only possible one. -/
def specBaseChar (c : Char) : Bool :=
  c.isAlphanum || c == ':' || c == '/' || c == '.' || c == '_' || c == '-'

/-- Spec §4.2 version class `[-A-Za-z0-9./]` (note: no underscore). -/
def specVersionChar (c : Char) : Bool :=
  c.isAlphanum || c == '.' || c == '/' || c == '-'

/-- Spec §4.2 sub_path class `[-A-Za-z0-9._/]`. -/
def specSubPathChar (c : Char) : Bool :=
  c.isAlphanum || c == '.' || c == '_' || c == '/' || c == '-'

/-- Written from the spec's words (§4.2): anchored, whole-string match of
`base (@version)? (#sub_path)?`; `none` when any part of the input is left
over or the leading `base` run is empty. -/
def specPathWholeMatch (s : String) : Option Path :=
  let cs := s.data
  let base := cs.takeWhile specBaseChar
  if base = [] then none
  else
    let rest := cs.dropWhile specBaseChar
    let (version, rest2) := matchOptGroup '@' specVersionChar rest
    let (sub_path, rest3) := matchOptGroup '#' specSubPathChar rest2
    if rest3 = [] then
      some { base := String.mk base, sub_path := sub_path, version := version }
    else none

/-! ## Surface values, stages and argument lowering (src/syntax/src/yaml.rs) -/

/-- An `f64` carried as its (uninterpreted) IEEE-754 bit pattern; no verified
claim constructs or inspects a float. -/
structure F64 where
  bits : Nat
deriving DecidableEq, Repr

/-- Model of `enum Value` (yaml.rs lines 215-222): `Int(i64) | Float(f64) | String |
List(Vec<Value>)`. -/
inductive Value where
  | int (i : Int)
  | float (f : F64)
  | string (s : String)
  | list (items : List Value)

/-- Model of `struct Type` (yaml.rs lines 205-213); named `Ty` because `Type` is a
Lean keyword. -/
structure Ty where
  ty : String
  dimensions : List Nat

/-- Model of `enum Stage` (yaml.rs lines 169-203); the four serde variants with their
defaulted fields.  `HashMap<String, Value>` argument maps are carried as
association lists (the claims never compare them as maps). -/
inductive Stage where
  | model (model : String) (inputs : List String) (outputs : List Ty)
  | procBlock (proc_block : Path) (inputs : List String) (outputs : List Ty)
      (args : List (String × Value))
  | capability (capability : String) (outputs : List Ty)
      (args : List (String × Value))
  | out (out : String) (inputs : List String) (args : List (String × Value))

/-- Model of `codespan::Span` as used by `Literal::new(_, Span::new(0, 0))`. -/
structure Span where
  start : Nat
  stop : Nat
deriving DecidableEq, Repr

/-- The payload of `ast::Literal` (only the construction sites visible in
yaml.rs lines 244-270 matter to the claims). -/
inductive LiteralKind where
  | int (v : Int)
  | float (v : F64)
  | string (v : String)

/-- Model of `ast::Literal`: a literal value together with its source span. -/
structure Literal where
  kind : LiteralKind
  span : Span

/-- Model of `ast::ArgumentValue`: either a literal or a list of strings (the shape is
fixed by the construction sites in yaml.rs lines 244-270). -/
inductive ArgumentValue where
  | literal (l : Literal)
  | list (items : List String)

/-- The string-collecting loop inside `From<Value> for ArgumentValue`
(yaml.rs lines 256-266): push each `Value::String`; hitting any other variant
executes `unimplemented!()`, i.e. panics — modelled as `none`. -/
def collectStrings : List Value → Option (List String)
  | [] => some []
  | Value.string s :: rest => (collectStrings rest).map (fun items => s :: items)
  | _ :: _ => none

/-- Model of `impl From<Value> for ArgumentValue` (yaml.rs lines 244-270).  The result
is an `Option` because the `Value::List` arm panics (`unimplemented!()`) on
any non-string item; `none` models that panic (an abort, not a diagnostic). -/
def Value.toArgumentValue : Value → Option ArgumentValue
  | .int i => some (.literal ⟨.int i, ⟨0, 0⟩⟩)
  | .float f => some (.literal ⟨.float f, ⟨0, 0⟩⟩)
  | .string s => some (.literal ⟨.string s, ⟨0, 0⟩⟩)
  | .list items => (collectStrings items).map ArgumentValue.list

/-! ## Name registration (src/syntax/src/yaml.rs, lines 296-301)

`Context::register_names` iterates the `HashMap<String, Stage>` pipeline with
a plain `for (name, _step) in pipeline` loop; a Rust `HashMap`'s iteration
order is arbitrary (randomized per process), so the embedding takes the
iteration sequence explicitly as a list of entries.

Modelled from the spec: `HirIds::next` and `NameTable::register` live in the
`analysis`/`hir` modules, which are not under `src/`; per §4.3 Pass A each
stage is assigned "a stable identifier", and `ids.next()` hands out
identifiers sequentially, so the model threads a counter and records the
`name ↦ id` binding for each entry in iteration order. -/

/-- Modelled from the spec: `Context::register_names` (yaml.rs lines
296-301) with `HirIds::next` and name registration (the `analysis`/`hir`
modules are not under `src/`) embedded as a sequential-id recorder over the
explicit iteration sequence, per §4.3 Pass A. -/
def register_names (pipeline : List (String × Stage)) (firstId : Nat) :
    List (String × Nat) :=
  match pipeline with
  | [] => []
  | (name, _step) :: rest => (name, firstId) :: register_names rest (firstId + 1)

/-- Lookup in the registered name table (first binding wins; bindings are
unique because the pipeline map's keys are unique). -/
def lookupName (table : List (String × Nat)) (name : String) : Option Nat :=
  match table with
  | [] => none
  | (a, id) :: rest => if name = a then some id else lookupName rest name

/-! ## Build context and feature flags (src/crates/compiler/src/build_context.rs) -/

/-- Model of `enum Verbosity` (build_context.rs lines 90-94). -/
inductive Verbosity where
  | quiet
  | normal
  | verbose
deriving DecidableEq, Repr

/-- Model of `struct RuneVersion` as used by `BuildContext.rune_version`. -/
structure RuneVersion where
  version : String
deriving DecidableEq, Repr

/-- Model of `struct BuildContext` (build_context.rs lines 12-26); `PathBuf` fields
become strings. -/
structure BuildContext where
  name : String
  runefile : String
  working_directory : String
  current_directory : String
  optimized : Bool
  verbosity : Verbosity
  rune_version : Option RuneVersion
deriving DecidableEq, Repr

/-- Model of `struct FeatureFlags` (build_context.rs lines 121-124). -/
structure FeatureFlags where
  rune_repo_dir : Option String
deriving DecidableEq, Repr

/-- Model of `FeatureFlags::production` (build_context.rs lines 139-143). -/
def FeatureFlags.production : FeatureFlags :=
  { rune_repo_dir := none }

/-! ## Cargo config generation (src/crates/compiler/src/codegen/generate_cargo_config.rs)

The generator builds a `Config` value and serializes it with `toml::to_vec`
(an external crate).  TOML serialization of this shape is injective, so the
emitted file's content is represented by the `Config` value itself: a table
of the config is present in the serialized bytes exactly when the
corresponding field is present here. -/

/-- The `[target.wasm32-unknown-unknown]` table (`struct Target`). -/
structure CfgTarget where
  rustflags : List String
deriving DecidableEq, Repr

/-- The `[target]` table (`struct Targets`). -/
structure CfgTargets where
  wasm32_unknown_unknown : CfgTarget
deriving DecidableEq, Repr

/-- The `[net]` table (`struct Net`). -/
structure CfgNet where
  git_fetch_with_cli : Bool
deriving DecidableEq, Repr

/-- The `[build]` table (`struct Build`). -/
structure CfgBuild where
  target : String
deriving DecidableEq, Repr

/-- Model of `struct Config` (generate_cargo_config.rs lines 39-44). -/
structure Config where
  target : Option CfgTargets
  net : CfgNet
  build : CfgBuild
deriving DecidableEq, Repr

/-- A generated file whose content is the `Config` it serializes to TOML. -/
structure ConfigFile where
  path : String
  data : Config
deriving DecidableEq, Repr

/-- Model of `generate_config` (generate_cargo_config.rs lines 12-37). -/
def generate_config (optimized : Bool) : ConfigFile :=
  let target :=
    if optimized then
      some { wasm32_unknown_unknown := { rustflags := ["-C", "link-arg=-s"] } }
    else
      none
  let config : Config :=
    { target := target
      net := { git_fetch_with_cli := true }
      build := { target := "wasm32-unknown-unknown" } }
  { path := ".cargo/config.toml", data := config }

/-! ## String helpers

Executable embeddings of the `str` methods the generators use (the
corresponding core-library functions are not kernel-reducible). -/

/-- Model of `str::starts_with(pre)`. -/
def strStartsWith (s pre : String) : Bool :=
  s.data.take pre.data.length == pre.data

/-- Model of `str::contains(c)` for a single character. -/
def strContainsChar (s : String) (c : Char) : Bool :=
  s.data.any (fun a => a == c)

/-- Lexicographic code-point comparison of character lists; on UTF-8 encoded
strings this coincides with the byte order `BTreeMap<String, _>` sorts by. -/
def strLtAux : List Char → List Char → Bool
  | [], [] => false
  | [], _ :: _ => true
  | _ :: _, [] => false
  | a :: as, b :: bs =>
    if a.toNat < b.toNat then true
    else if b.toNat < a.toNat then false
    else strLtAux as bs

/-- Lexicographic string comparison (the `Ord` a `BTreeMap<String, _>`
sorts its keys by). -/
def strLt (a b : String) : Bool :=
  strLtAux a.data b.data

/-! ## BTreeMap model

`cargo_toml`'s `DepsSet`/`PatchSet` are `BTreeMap<String, _>`: keys are kept
in sorted order and `insert` replaces an existing binding. -/

/-- Model of `BTreeMap::insert` on a key-sorted association list. -/
def insertSorted {α : Type} (k : String) (v : α) :
    List (String × α) → List (String × α)
  | [] => [(k, v)]
  | (a, b) :: t =>
    if strLt k a then (k, v) :: (a, b) :: t
    else if k = a then (k, v) :: t
    else (a, b) :: insertSorted k v t

/-- Model of `BTreeMap::get` on an association list (first binding wins). -/
def lookupAL {α : Type} (l : List (String × α)) (k : String) : Option α :=
  match l with
  | [] => none
  | (a, b) :: t => if k = a then some b else lookupAL t k

/-- Key membership in an association list. -/
def containsKey {α : Type} (l : List (String × α)) (k : String) : Bool :=
  (lookupAL l k).isSome

/-- Model of `BTreeMap::extend`: insert every binding of the second map into the
first. -/
def extendMap {α : Type} (base m : List (String × α)) : List (String × α) :=
  m.foldl (fun acc kv => insertSorted kv.1 kv.2 acc) base

/-! ## Cargo.toml generation (src/crates/compiler/src/codegen/generate_cargo_toml.rs) -/

/-- Model of `REPO` (generate_cargo_toml.rs line 10). -/
def REPO : String := "https://github.com/hotg-ai/rune"

/-- Modelled from the spec: `hotg_rune_core::VERSION` is a constant of the
external `hotg-rune-core` crate, which is not under `src/`; its concrete
value is not observable here, only its role as "the compiler's core version"
(§4.5, §4.7). -/
def hotg_rune_core_VERSION : String := "CORE_VERSION"

/-- Model of `CORE_VERSION` (generate_cargo_toml.rs line 12). -/
def CORE_VERSION : String := hotg_rune_core_VERSION

/-- Modelled from the spec: `hotg_rune_proc_blocks::VERSION` is a constant of
the external `hotg-rune-proc-blocks` crate, not under `src/`.  The spec pins
every first-party crate "at the compiler's core version" (§4.7) and the
in-repo test `builtin_proc_blocks_always_use_nightly_tag` asserts the builtin
tag equals `v{CORE_VERSION}`, so the two version constants are modelled as
the same string. -/
def hotg_rune_proc_blocks_VERSION : String := hotg_rune_core_VERSION

/-- Model of `PROC_BLOCK_VERSION` (generate_cargo_toml.rs line 13). -/
def PROC_BLOCK_VERSION : String := hotg_rune_proc_blocks_VERSION

/-- Model of `cargo_toml::DependencyDetail` (the fields `registry`, `registry_index`,
`branch`, `rev`, `optional`, `default_features` and `package` are never set
by this generator and stay at their `empty_dependency_detail` values). -/
structure DependencyDetail where
  version : Option String
  registry : Option String
  registry_index : Option String
  path : Option String
  git : Option String
  branch : Option String
  tag : Option String
  rev : Option String
  features : List String
  optional : Bool
  default_features : Option Bool
  package : Option String
deriving DecidableEq, Repr

/-- Model of `empty_dependency_detail` (generate_cargo_toml.rs lines 246-261). -/
def empty_dependency_detail : DependencyDetail :=
  { version := none
    registry := none
    registry_index := none
    path := none
    git := none
    branch := none
    tag := none
    rev := none
    features := []
    optional := false
    default_features := none
    package := none }

/-- Model of `cargo_toml::Dependency`. -/
inductive Dependency where
  | simple (version : String)
  | detailed (detail : DependencyDetail)
deriving DecidableEq, Repr

/-- Model of `Dependency::git()`: the git URL of a detailed dependency. -/
def Dependency.gitOf : Dependency → Option String
  | .simple _ => none
  | .detailed d => d.git

/-- Modelled from the spec: `lowering::ProcBlock` lives in the `lowering`
module, which is not under `src/`; only the fields this generator consumes
appear here: `path` (the parsed dependency locator) and `name`, which models
the `ProcBlock::name()` accessor used for the dependency-table key
(generate_cargo_toml.rs line 140). -/
structure ProcBlock where
  name : String
  path : Path

/-- Model of `Path::join(..).display()`, for the relative right-hand operands this
code produces: concatenation with a `/` separator. -/
def joinPath (dir rel : String) : String := dir ++ "/" ++ rel

/-- Model of `is_builtin` (generate_cargo_toml.rs line 187). -/
def is_builtin (path : Path) : Bool := path.base == "hotg-ai/rune"

/-- Model of `git_tagged_dependency` (generate_cargo_toml.rs lines 189-195). -/
def git_tagged_dependency (repo tag : String) : DependencyDetail :=
  { empty_dependency_detail with git := some repo, tag := some tag }

/-- Model of `local_proc_block` (generate_cargo_toml.rs lines 177-185). -/
def local_proc_block (path : Path) (current_dir : String) : DependencyDetail :=
  { empty_dependency_detail with path := some (joinPath current_dir path.base) }

/-- Model of `proc_block_dependency` (generate_cargo_toml.rs lines 147-175). -/
def proc_block_dependency (path : Path) (current_dir : String) :
    DependencyDetail :=
  if is_builtin path then
    git_tagged_dependency REPO ("v" ++ PROC_BLOCK_VERSION)
  else if strStartsWith path.base "." then
    local_proc_block path current_dir
  else
    let fallback : DependencyDetail :=
      { empty_dependency_detail with
          git := some ("https://github.com/" ++ path.base ++ ".git") }
    if path.sub_path.isNone && !(strContainsChar path.base '/') then
      match path.version with
      | some version => { empty_dependency_detail with version := some version }
      | none => fallback
    else fallback

/-- Model of `dependencies` (generate_cargo_toml.rs lines 97-145): the five fixed
entries followed by one entry per proc block. -/
def dependencies (proc_blocks : List ProcBlock) (current_dir : String) :
    List (String × Dependency) :=
  let deps : List (String × Dependency) := []
  let deps := insertSorted "log"
    (.detailed { empty_dependency_detail with
        version := some "0.4"
        features := ["max_level_debug", "release_max_level_info"] }) deps
  let deps := insertSorted "lazy_static"
    (.detailed { empty_dependency_detail with
        version := some "1.0"
        features := ["spin_no_std"] }) deps
  let deps := insertSorted "hotg-rune-core"
    (.simple hotg_rune_core_VERSION) deps
  let deps := insertSorted "hotg-rune-proc-blocks"
    (.simple hotg_rune_proc_blocks_VERSION) deps
  let deps := insertSorted "hotg-runicos-base-wasm"
    (.simple hotg_rune_core_VERSION) deps
  proc_blocks.foldl
    (fun deps pb =>
      insertSorted pb.name
        (.detailed (proc_block_dependency pb.path current_dir)) deps)
    deps

/-- Model of `cargo_toml::Edition`. -/
inductive Edition where
  | e2015
  | e2018
  | e2021
deriving DecidableEq, Repr

/-- Model of `cargo_toml::Publish` (only the boolean flag form is used). -/
inductive Publish where
  | flag (b : Bool)
deriving DecidableEq, Repr

/-- Model of `cargo_toml::Resolver`. -/
inductive Resolver where
  | v1
  | v2
deriving DecidableEq, Repr

/-- Model of `cargo_toml::Package`, restricted to the fields `package`/`empty_package`
set to non-default values (the remaining `empty_package` fields are
`None`/empty and never change). -/
structure Package where
  name : String
  edition : Edition
  version : String
  publish : Publish
  resolver : Option Resolver
deriving DecidableEq, Repr

/-- Model of `cargo_toml::Product` (the `lib` target); only the fields set by
`generate_manifest` appear. -/
structure Product where
  path : Option String
  edition : Option Edition
  crate_type : Option (List String)
deriving DecidableEq, Repr

/-- Model of `cargo_toml::Workspace`. -/
structure Workspace where
  members : List String
  default_members : List String
  exclude : List String
deriving DecidableEq, Repr

/-- Model of `cargo_toml::Manifest`, restricted to the fields this generator touches
(`empty_manifest` sets every other field to its empty default and nothing
ever writes them). -/
structure Manifest where
  package : Option Package
  lib : Option Product
  dependencies : List (String × Dependency)
  workspace : Option Workspace
  patch : List (String × List (String × Dependency))
deriving DecidableEq, Repr

/-- Model of `package` (generate_cargo_toml.rs lines 86-95). -/
def package (name : String) : Package :=
  { name := name
    edition := .e2018
    version := "0.0.0"
    publish := .flag false
    resolver := some .v2 }

/-- Model of `generate_manifest` (generate_cargo_toml.rs lines 57-84). -/
def generate_manifest (proc_blocks : List ProcBlock) (name : String)
    (current_dir : String) : Manifest :=
  let product : Product :=
    { path := some "lib.rs"
      edition := some .e2018
      crate_type := some ["cdylib"] }
  { package := some (package name)
    lib := some product
    dependencies := dependencies proc_blocks current_dir
    workspace := some { members := ["."], default_members := ["."], exclude := [] }
    patch := [] }

/-- Model of `path_dependency` (generate_cargo_toml.rs lines 263-268). -/
def path_dependency (p : String) : Dependency :=
  .detailed { empty_dependency_detail with path := some p }

/-- Model of `known_paths` (generate_cargo_toml.rs lines 271-275). -/
def known_paths : List (String × String) :=
  [("hotg-rune-core", "crates/rune-core"),
   ("hotg-rune-proc-blocks", "proc-blocks/proc-blocks"),
   ("hotg-runicos-base-wasm", "images/runicos-base/wasm")]

/-- The per-dependency redirect target chosen inside the loop of
`patch_hotg_dependencies` (lines 292-301): a known crate's path, or
`proc_blocks_dir.join(name)` otherwise. -/
def overridePath (hotg_repo_dir name : String) : String :=
  match (known_paths.filter (fun np => name = np.1)).head? with
  | some np => joinPath hotg_repo_dir np.2
  | none => joinPath (joinPath hotg_repo_dir "proc-blocks") name

/-- The `for (name, dep) in &manifest.dependencies` loop of
`patch_hotg_dependencies` (lines 280-304): skip a dependency unless its name
starts with `hotg-` or its git source is the canonical repo; otherwise
insert a redirect to `overridePath`. -/
def overridesLoop (hotg_repo_dir : String)
    (deps acc : List (String × Dependency)) : List (String × Dependency) :=
  deps.foldl
    (fun acc nd =>
      let name := nd.1
      let dep := nd.2
      let uses_hotg_github := dep.gitOf = some REPO
      if ¬ strStartsWith name "hotg-" ∧ ¬ uses_hotg_github then acc
      else insertSorted name (path_dependency (overridePath hotg_repo_dir name)) acc)
    acc

/-- The `overrides` map built by `patch_hotg_dependencies` (lines 276-313):
one entry per first-party dependency (name starts with `hotg-` or the git
source is the canonical repo), then the two unconditional entries for
`hotg-rune-core` and `hotg-rune-proc-blocks`. -/
def buildOverrides (hotg_repo_dir : String)
    (deps : List (String × Dependency)) : List (String × Dependency) :=
  let overrides := overridesLoop hotg_repo_dir deps []
  let overrides := insertSorted "hotg-rune-core"
    (path_dependency (joinPath (joinPath hotg_repo_dir "crates") "rune-core"))
    overrides
  insertSorted "hotg-rune-proc-blocks"
    (path_dependency (joinPath (joinPath hotg_repo_dir "proc-blocks") "proc-blocks"))
    overrides

/-- Model of `patch_hotg_dependencies` (generate_cargo_toml.rs lines 270-325):
`manifest.patch.entry(k).or_default().extend(overrides)` for `k` being
`crates-io` and the canonical repo URL. -/
def patch_hotg_dependencies (hotg_repo_dir : String) (manifest : Manifest) :
    Manifest :=
  let overrides := buildOverrides hotg_repo_dir manifest.dependencies
  let p1 := insertSorted "crates-io"
    (extendMap ((lookupAL manifest.patch "crates-io").getD []) overrides)
    manifest.patch
  let p2 := insertSorted "https://github.com/hotg-ai/rune"
    (extendMap ((lookupAL p1 "https://github.com/hotg-ai/rune").getD []) overrides)
    p1
  { manifest with patch := p2 }

/-- The manifest constructed by the `run` system (generate_cargo_toml.rs
lines 17-54): generate the manifest from the proc blocks in the world, then
apply the patch tables when `rune_repo_dir` is set.  (The serialization via
`toml::to_string_pretty` and the wrapping into a `File` are external-crate
plumbing; the emitted content is represented by the `Manifest` value.) -/
def run_manifest (proc_blocks : List ProcBlock) (ctx : BuildContext)
    (features : FeatureFlags) : Manifest :=
  let manifest := generate_manifest proc_blocks ctx.name ctx.current_directory
  match features.rune_repo_dir with
  | some hotg_repo_dir => patch_hotg_dependencies hotg_repo_dir manifest
  | none => manifest

/-! ## Phase driver (src/crates/compiler/src/phases.rs)

The driver threads a build state — the legion `World`, the `Resources` bag
and the salsa `Database` — through five phase bodies and six hook
invocations.  The state is abstracted as a type parameter `S`: the phase
bodies (`parse`, `lowering::phase`, `type_check::phase`,
`update_db_before_codegen` + `db.files()`, and `db.build()` +
`res.insert(CompilationResult)`) live in modules that are not under `src/`
and are therefore arbitrary state transformers, while the driver's control
flow is translated line by line from `build_with_hooks` (phases.rs lines
26-104).  A hook receives read-write access to the state and returns a
continuation, so it is a function `S → S × Continuation`. -/

/-- Modelled from the spec: `hooks::Continuation` (§4.8): a hook returns
`Continue` or `Halt` (the `hooks` module is not under `src/`). -/
inductive Continuation where
  | Continue
  | Halt
deriving DecidableEq, Repr

/-- The six phase-boundary hooks of `trait Hooks`, as consumed by
`build_with_hooks`. -/
structure Hooks (S : Type) where
  before_parse : S → S × Continuation
  after_parse : S → S × Continuation
  after_lowering : S → S × Continuation
  after_type_checking : S → S × Continuation
  after_codegen : S → S × Continuation
  after_compile : S → S × Continuation

/-- The five phase bodies sequenced by the driver, abstracted as state
transformers (their implementations are outside `src/`).  `codegen_phase`
covers `update_db_before_codegen` plus the in-memory `db.files()` query;
`compile_phase` covers `db.build()` and the insertion of the
`CompilationResult` — the step that actually emits files. -/
structure PhaseImpls (S : Type) where
  parse_phase : S → S
  lowering_phase : S → S
  type_check_phase : S → S
  codegen_phase : S → S
  compile_phase : S → S

/-- Model of `build_with_hooks` (phases.rs lines 26-104): run each phase in order,
invoking the corresponding hook after it; whenever a hook returns anything
other than `Continue`, return the current world and resources immediately.
(After `after_compile` both branches return the same state.) -/
def build_with_hooks {S : Type} (ph : PhaseImpls S) (hooks : Hooks S)
    (s0 : S) : S :=
  let r0 := hooks.before_parse s0
  if r0.2 ≠ Continuation.Continue then r0.1 else
  let r1 := hooks.after_parse (ph.parse_phase r0.1)
  if r1.2 ≠ Continuation.Continue then r1.1 else
  let r2 := hooks.after_lowering (ph.lowering_phase r1.1)
  if r2.2 ≠ Continuation.Continue then r2.1 else
  let r3 := hooks.after_type_checking (ph.type_check_phase r2.1)
  if r3.2 ≠ Continuation.Continue then r3.1 else
  let r4 := hooks.after_codegen (ph.codegen_phase r3.1)
  if r4.2 ≠ Continuation.Continue then r4.1 else
  let r5 := hooks.after_compile (ph.compile_phase r4.1)
  r5.1

/-- The state and continuation produced by the k-th hook (0 = `before_parse`
… 5 = `after_compile`), assuming every earlier hook continued.  Its
definition applies only the phases strictly before the k-th hook boundary, so
equating the driver's result with `(stateAfterHook … k).1` certifies that no
later phase body (in particular the emitting `compile_phase`, when `k < 5`)
was applied. -/
def stateAfterHook {S : Type} (ph : PhaseImpls S) (hooks : Hooks S) (s0 : S) :
    Nat → S × Continuation
  | 0 => hooks.before_parse s0
  | 1 => hooks.after_parse (ph.parse_phase (hooks.before_parse s0).1)
  | 2 => hooks.after_lowering (ph.lowering_phase
      (hooks.after_parse (ph.parse_phase (hooks.before_parse s0).1)).1)
  | 3 => hooks.after_type_checking (ph.type_check_phase
      (hooks.after_lowering (ph.lowering_phase
        (hooks.after_parse (ph.parse_phase (hooks.before_parse s0).1)).1)).1)
  | 4 => hooks.after_codegen (ph.codegen_phase
      (hooks.after_type_checking (ph.type_check_phase
        (hooks.after_lowering (ph.lowering_phase
          (hooks.after_parse (ph.parse_phase (hooks.before_parse s0).1)).1)).1)).1)
  | _ + 5 => hooks.after_compile (ph.compile_phase
      (hooks.after_codegen (ph.codegen_phase
        (hooks.after_type_checking (ph.type_check_phase
          (hooks.after_lowering (ph.lowering_phase
            (hooks.after_parse (ph.parse_phase (hooks.before_parse s0).1)).1)).1)).1)).1)

/-- Modelled from the spec: `NopHooks` (phases.rs lines 18-19) relies on the
`Hooks` trait's default method bodies, which live in the `hooks` module not
under `src/`; per §4.8 hooks only *may* halt the pipeline, and the no-op
implementation observes nothing and always continues. -/
def nopHooks (S : Type) : Hooks S :=
  { before_parse := fun s => (s, .Continue)
    after_parse := fun s => (s, .Continue)
    after_lowering := fun s => (s, .Continue)
    after_type_checking := fun s => (s, .Continue)
    after_codegen := fun s => (s, .Continue)
    after_compile := fun s => (s, .Continue) }

/-- Model of `build` (phases.rs lines 17-22): `build_with_hooks` with
`FeatureFlags::production()` and `NopHooks`.  The feature flags are part of
the abstract state; `FeatureFlags.production` is recorded separately and
consumed by `run_manifest` in the codegen phase. -/
def build {S : Type} (ph : PhaseImpls S) (s0 : S) : S :=
  build_with_hooks ph (nopHooks S) s0

/-! ## Concrete fixtures used by witnesses -/

/-- A concrete build context (shape taken from `BuildContext::from_doc`). -/
def exampleContext : BuildContext :=
  { name := "sine"
    runefile := ""
    working_directory := "."
    current_directory := "."
    optimized := true
    verbosity := .normal
    rune_version := none }

/-- Concrete phase bodies over a trace state: each phase appends its own
tag, so the final trace records exactly which phases ran. -/
def tracePhases : PhaseImpls (List Nat) :=
  { parse_phase := (· ++ [1])
    lowering_phase := (· ++ [2])
    type_check_phase := (· ++ [3])
    codegen_phase := (· ++ [4])
    compile_phase := (· ++ [5]) }

/-- Concrete hooks over the trace state: every hook continues except
`after_lowering`, which mutates the state and halts. -/
def haltAfterLoweringHooks : Hooks (List Nat) :=
  { before_parse := fun s => (s, .Continue)
    after_parse := fun s => (s, .Continue)
    after_lowering := fun s => (s ++ [99], .Halt)
    after_type_checking := fun s => (s, .Continue)
    after_codegen := fun s => (s, .Continue)
    after_compile := fun s => (s, .Continue) }

/-! # Theorems -/

/-- Auxiliary: the unanchored regex matches iff the input contains at least
one `base`-class character. -/
theorem findMatchStart_isSome (cs : List Char) :
    (findMatchStart cs).isSome = cs.any baseChar := by
  induction cs with
  | nil => rfl
  | cons c rest ih =>
    by_cases h : baseChar c = true <;>
      simp [findMatchStart, h, ih]

/-- C1 (code_bug): the round-trip `parse(render(p)) == p` fails on a path
carrying both a version and a sub_path.  `"a@c#b"` parses to
`{base: "a", version: "c", sub_path: "b"}`, but `Display` renders that path
as `"a#b@c"` (sub_path *before* version, contradicting the struct's own doc
comment `base@version#sub_path`), and re-parsing drops the version because
the parser only accepts `@version` before `#sub_path`. -/
theorem c1_path_roundtrip_fails_with_version_and_sub_path :
    Path.parse "a@c#b" = some ⟨"a", some "b", some "c"⟩ ∧
    Path.render ⟨"a", some "b", some "c"⟩ = "a#b@c" ∧
    Path.parse (Path.render ⟨"a", some "b", some "c"⟩) =
      some ⟨"a", some "b", none⟩ ∧
    Path.parse (Path.render ⟨"a", some "b", some "c"⟩) ≠
      some ⟨"a", some "b", some "c"⟩ := by
  refine ⟨by decide, by decide, by decide, by decide⟩

/-- C2 (counterexample): the claim "parsing succeeds exactly when the whole
of s matches the grammar … any string not of this form is rejected" is false:
`"a b"` is not of the grammar form (the spec-side whole-string matcher
rejects it), yet the unanchored parser accepts it as base `"a"`. -/
theorem c2_unanchored_parser_accepts_nongrammar_string :
    Path.parse "a b" = some ⟨"a", none, none⟩ ∧
    specPathWholeMatch "a b" = none := by
  refine ⟨by decide, by decide⟩

/-- C2 (amended): parsing succeeds exactly when the input contains at least
one character of the base class `[\w\d:/_.-]`; the result is the
leftmost-first match of `base (@version)? (#sub_path)?` inside the string,
which need not cover the whole of it. -/
theorem c2_parse_succeeds_iff_contains_base_char (s : String) :
    (Path.parse s).isSome = s.data.any baseChar := by
  unfold Path.parse
  rw [← findMatchStart_isSome s.data]
  cases findMatchStart s.data <;> rfl

/-- C3: a proc-block path whose base is `hotg-ai/rune` resolves to a git
dependency on the canonical repository at tag `v{CORE_VERSION}`, with no
version and no path, regardless of the path's own version or sub_path.
(The source tags with `PROC_BLOCK_VERSION`, which is modelled as equal to
`CORE_VERSION`; see `hotg_rune_proc_blocks_VERSION`.) -/
theorem c3_builtin_proc_block_resolution (p : Path) (cur : String)
    (h : p.base = "hotg-ai/rune") :
    proc_block_dependency p cur =
      { empty_dependency_detail with
          git := some REPO, tag := some ("v" ++ CORE_VERSION) } := by
  simp [proc_block_dependency, is_builtin, h, git_tagged_dependency,
    PROC_BLOCK_VERSION, hotg_rune_proc_blocks_VERSION, CORE_VERSION]

/-- C3 witness: the builtin proc block `hotg-ai/rune#proc_blocks/modulo`
concretely resolves to the tagged git dependency (the in-repo test
`builtin_proc_blocks_always_use_nightly_tag` checks the same input). -/
theorem c3_builtin_proc_block_resolution_witness :
    proc_block_dependency ⟨"hotg-ai/rune", some "proc_blocks/modulo", none⟩ "." =
      { empty_dependency_detail with
          git := some REPO, tag := some ("v" ++ CORE_VERSION) } :=
  c3_builtin_proc_block_resolution
    ⟨"hotg-ai/rune", some "proc_blocks/modulo", none⟩ "." rfl

/-- C4 (code_bug): lowering an argument list containing a non-string item
does not record a diagnostic and continue — the `Value::List` arm of
`From<Value> for ArgumentValue` executes `unimplemented!()`, a panic that
aborts the compiler (modelled as `none`), while an all-string list converts
normally. -/
theorem c4_nonstring_list_item_aborts_instead_of_diagnostic :
    Value.toArgumentValue (Value.list [Value.int 1]) = none ∧
    Value.toArgumentValue (Value.list [Value.string "a"]) =
      some (ArgumentValue.list ["a"]) :=
  ⟨rfl, rfl⟩

/-- C5 (counterexample): name registration does not traverse the stage
mapping sorted by name, and iteration order does affect results.  The two
lists below are two iteration orders of the *same* two-stage pipeline
mapping, yet stage `a` is assigned id 1 under one order and id 0 under the
other (in particular the traversal cannot be the ascending-by-name one for
the first order). -/
theorem c5_iteration_order_changes_assigned_ids :
    lookupName
      (register_names
        [("b", Stage.out "SERIAL" [] []), ("a", Stage.out "SERIAL" [] [])] 0)
      "a" = some 1 ∧
    lookupName
      (register_names
        [("a", Stage.out "SERIAL" [] []), ("b", Stage.out "SERIAL" [] [])] 0)
      "a" = some 0 :=
  ⟨rfl, rfl⟩

/-- C5 (amended): name registration traverses the pipeline mapping in the
`HashMap`'s arbitrary iteration order — not sorted by name — and assigns
sequential identifiers in that order (entry at position i gets id
firstId + i), so the assigned identifiers depend on the iteration order and
determinism is not obtained by sorting at this level. -/
theorem c5_register_names_assigns_sequential_ids_in_iteration_order
    (pipeline : List (String × Stage)) (firstId : Nat) :
    (register_names pipeline firstId).map Prod.fst = pipeline.map Prod.fst ∧
    (register_names pipeline firstId).map Prod.snd =
      List.range' firstId pipeline.length := by
  induction pipeline generalizing firstId with
  | nil => exact ⟨rfl, rfl⟩
  | cons hd tl ih =>
    obtain ⟨ih1, ih2⟩ := ih (firstId + 1)
    refine ⟨?_, ?_⟩ <;> simp [register_names, List.range', ih1, ih2]

/-- C6: for every hooks implementation, every set of phase bodies and every
input state, if every hook before the k-th continues and the k-th hook
returns `Halt`, the driver's result is exactly the state at that hook — an
expression applying only the phases before the k-th boundary, so no
subsequent phase runs (in particular, for k < 5 the emitting compile step
never runs and no file is emitted) and the partially populated world and
resources are still returned to the caller. -/
theorem c6_hook_halt_short_circuits {S : Type} (ph : PhaseImpls S)
    (hooks : Hooks S) (s0 : S) (k : Nat) (hk : k < 6)
    (hcont : ∀ j, j < k → (stateAfterHook ph hooks s0 j).2 = Continuation.Continue)
    (hhalt : (stateAfterHook ph hooks s0 k).2 = Continuation.Halt) :
    build_with_hooks ph hooks s0 = (stateAfterHook ph hooks s0 k).1 := by
  interval_cases k
  · simp only [stateAfterHook] at hhalt ⊢
    simp [build_with_hooks, hhalt]
  · have h0 := hcont 0 (by omega)
    simp only [stateAfterHook] at h0 hhalt ⊢
    simp [build_with_hooks, h0, hhalt]
  · have h0 := hcont 0 (by omega)
    have h1 := hcont 1 (by omega)
    simp only [stateAfterHook] at h0 h1 hhalt ⊢
    simp [build_with_hooks, h0, h1, hhalt]
  · have h0 := hcont 0 (by omega)
    have h1 := hcont 1 (by omega)
    have h2 := hcont 2 (by omega)
    simp only [stateAfterHook] at h0 h1 h2 hhalt ⊢
    simp [build_with_hooks, h0, h1, h2, hhalt]
  · have h0 := hcont 0 (by omega)
    have h1 := hcont 1 (by omega)
    have h2 := hcont 2 (by omega)
    have h3 := hcont 3 (by omega)
    simp only [stateAfterHook] at h0 h1 h2 h3 hhalt ⊢
    simp [build_with_hooks, h0, h1, h2, h3, hhalt]
  · have h0 := hcont 0 (by omega)
    have h1 := hcont 1 (by omega)
    have h2 := hcont 2 (by omega)
    have h3 := hcont 3 (by omega)
    have h4 := hcont 4 (by omega)
    simp only [stateAfterHook] at h0 h1 h2 h3 h4 hhalt ⊢
    simp [build_with_hooks, h0, h1, h2, h3, h4, hhalt]

/-- C6 witness: with concrete trace phases and hooks whose `after_lowering`
halts, the driver returns the state at that hook: the parse and lowering
phases ran (tags 1 and 2), the halting hook's own mutation is present (tag
99), and no later phase tag appears. -/
theorem c6_hook_halt_short_circuits_witness :
    build_with_hooks tracePhases haltAfterLoweringHooks [] =
      (stateAfterHook tracePhases haltAfterLoweringHooks [] 2).1 ∧
    (stateAfterHook tracePhases haltAfterLoweringHooks [] 2).1 = [1, 2, 99] :=
  ⟨c6_hook_halt_short_circuits tracePhases haltAfterLoweringHooks [] 2
      (by omega)
      (by intro j hj
          interval_cases j <;> rfl)
      rfl,
   rfl⟩

/-- C7: for every build context, the generated `.cargo/config.toml` sets
`[build] target = wasm32-unknown-unknown` and
`[net] git-fetch-with-cli = true`, and contains the
`[target.wasm32-unknown-unknown] rustflags = ["-C", "link-arg=-s"]` table
exactly when `optimized` is true. -/
theorem c7_cargo_config_contents (ctx : BuildContext) :
    (generate_config ctx.optimized).path = ".cargo/config.toml" ∧
    (generate_config ctx.optimized).data.build.target =
      "wasm32-unknown-unknown" ∧
    (generate_config ctx.optimized).data.net.git_fetch_with_cli = true ∧
    ((generate_config ctx.optimized).data.target =
        some { wasm32_unknown_unknown := { rustflags := ["-C", "link-arg=-s"] } }
      ↔ ctx.optimized = true) := by
  cases h : ctx.optimized <;> simp [generate_config]

/-- C8: with no proc-block stages, the generated manifest has exactly the
five dependencies — `log` 0.4 with its two level features, `lazy_static` 1.0
with `spin_no_std`, and the three first-party crates pinned at the core
version (the modelled `PROC_BLOCK_VERSION` coincides with `CORE_VERSION`).
The list is the `BTreeMap` key order of the dependency set. -/
theorem c8_base_dependency_set (name cur : String) :
    (generate_manifest [] name cur).dependencies =
      [("hotg-rune-core", .simple CORE_VERSION),
       ("hotg-rune-proc-blocks", .simple PROC_BLOCK_VERSION),
       ("hotg-runicos-base-wasm", .simple CORE_VERSION),
       ("lazy_static", .detailed { empty_dependency_detail with
          version := some "1.0", features := ["spin_no_std"] }),
       ("log", .detailed { empty_dependency_detail with
          version := some "0.4",
          features := ["max_level_debug", "release_max_level_info"] })] ∧
    PROC_BLOCK_VERSION = CORE_VERSION :=
  ⟨rfl, rfl⟩

/-- C10: the public entry point `build` uses the no-op hooks and production
feature flags: no hook ever halts, so every phase (including the emitting
compile step) runs on every input, and since production flags carry
`rune_repo_dir = None`, the generated manifest's patch table is empty for
every pipeline. -/
theorem c10_build_production_no_patch_no_halt {S : Type} (ph : PhaseImpls S)
    (s0 : S) :
    build ph s0 =
      ph.compile_phase (ph.codegen_phase (ph.type_check_phase
        (ph.lowering_phase (ph.parse_phase s0)))) ∧
    FeatureFlags.production.rune_repo_dir = none ∧
    (∀ (pbs : List ProcBlock) (ctx : BuildContext),
      (run_manifest pbs ctx FeatureFlags.production).patch = []) :=
  ⟨rfl, rfl, fun _ _ => rfl⟩

/-! ### Association-list lemmas for the patch-table claim -/

/-- Auxiliary: lookup after a sorted insert. -/
theorem lookupAL_insertSorted {α : Type} (k k2 : String) (v : α)
    (l : List (String × α)) :
    lookupAL (insertSorted k v l) k2 =
      if k2 = k then some v else lookupAL l k2 := by
  induction l with
  | nil => simp [insertSorted, lookupAL]
  | cons hd t ih =>
    obtain ⟨a, b⟩ := hd
    by_cases hlt : strLt k a
    · simp [insertSorted, hlt, lookupAL]
    · by_cases heq : k = a
      · subst heq
        by_cases h2 : k2 = k <;> simp [insertSorted, hlt, lookupAL, h2]
      · by_cases h2 : k2 = k
        · subst h2
          simp [insertSorted, hlt, heq, lookupAL, ih]
        · by_cases h3 : k2 = a
          · subst h3
            simp [insertSorted, hlt, heq, lookupAL, h2, ih, Ne.symm heq]
          · simp [insertSorted, hlt, heq, lookupAL, h2, h3, ih]

/-- Auxiliary: key membership after a sorted insert. -/
theorem containsKey_insertSorted {α : Type} (k k2 : String) (v : α)
    (l : List (String × α)) :
    containsKey (insertSorted k v l) k2 =
      (decide (k2 = k) || containsKey l k2) := by
  unfold containsKey
  rw [lookupAL_insertSorted]
  by_cases h : k2 = k <;> simp [h]

/-- Auxiliary: a sorted insert adds no pair other than the inserted one. -/
theorem mem_insertSorted {α : Type} (k : String) (v : α)
    (l : List (String × α)) (p : String × α)
    (hp : p ∈ insertSorted k v l) : p = (k, v) ∨ p ∈ l := by
  induction l with
  | nil => simpa [insertSorted] using hp
  | cons hd t ih =>
    obtain ⟨a, b⟩ := hd
    by_cases hlt : strLt k a
    · rw [insertSorted, if_pos hlt] at hp
      rcases List.mem_cons.mp hp with h | h
      · exact Or.inl h
      · exact Or.inr h
    · by_cases heq : k = a
      · rw [insertSorted, if_neg hlt, if_pos heq] at hp
        rcases List.mem_cons.mp hp with h | h
        · exact Or.inl h
        · exact Or.inr (List.mem_cons_of_mem _ h)
      · rw [insertSorted, if_neg hlt, if_neg heq] at hp
        rcases List.mem_cons.mp hp with h | h
        · exact Or.inr (by simp [h])
        · rcases ih h with h2 | h2
          · exact Or.inl h2
          · exact Or.inr (List.mem_cons_of_mem _ h2)

/-- Auxiliary: a successful lookup exhibits a member pair. -/
theorem lookupAL_mem {α : Type} (l : List (String × α)) (k : String) (v : α)
    (h : lookupAL l k = some v) : (k, v) ∈ l := by
  induction l with
  | nil => simp [lookupAL] at h
  | cons hd t ih =>
    obtain ⟨a, b⟩ := hd
    by_cases heq : k = a
    · subst heq
      simp [lookupAL] at h
      simp [h]
    · rw [lookupAL, if_neg heq] at h
      exact List.mem_cons_of_mem _ (ih h)

/-- Auxiliary: extending a map adds only pairs of the extension. -/
theorem mem_extendMap {α : Type} (l : List (String × α)) :
    ∀ (base : List (String × α)) (p : String × α),
      p ∈ extendMap base l → p ∈ base ∨ p ∈ l := by
  induction l with
  | nil =>
    intro base p hp
    exact Or.inl hp
  | cons hd t ih =>
    intro base p hp
    have hstep : extendMap base (hd :: t) =
        extendMap (insertSorted hd.1 hd.2 base) t := rfl
    rw [hstep] at hp
    rcases ih _ p hp with hmem | hmem
    · rcases mem_insertSorted _ _ _ _ hmem with he | hb
      · exact Or.inr (by simp [he])
      · exact Or.inl hb
    · exact Or.inr (List.mem_cons_of_mem _ hmem)

/-- Auxiliary: extending a map preserves existing keys. -/
theorem containsKey_extendMap_left {α : Type} (l : List (String × α)) :
    ∀ (base : List (String × α)) (k : String),
      containsKey base k = true → containsKey (extendMap base l) k = true := by
  induction l with
  | nil => intro base k h; exact h
  | cons hd t ih =>
    intro base k h
    have hstep : extendMap base (hd :: t) =
        extendMap (insertSorted hd.1 hd.2 base) t := rfl
    rw [hstep]
    apply ih
    rw [containsKey_insertSorted]
    simp [h]

/-- Auxiliary: every key of the extension is a key of the extended map. -/
theorem containsKey_extendMap_right {α : Type} (l : List (String × α)) :
    ∀ (base : List (String × α)) (k : String),
      containsKey l k = true → containsKey (extendMap base l) k = true := by
  induction l with
  | nil => intro base k h; simp [containsKey, lookupAL] at h
  | cons hd t ih =>
    intro base k h
    have hstep : extendMap base (hd :: t) =
        extendMap (insertSorted hd.1 hd.2 base) t := rfl
    rw [hstep]
    by_cases heq : k = hd.1
    · apply containsKey_extendMap_left
      rw [containsKey_insertSorted]
      simp [heq]
    · apply ih
      obtain ⟨a, b⟩ := hd
      unfold containsKey lookupAL at h
      simpa [heq] using h

/-- Auxiliary: every redirect target chosen by the override loop lies under
the override directory. -/
theorem overridePath_under (dir name : String) :
    ∃ rel, overridePath dir name = dir ++ "/" ++ rel := by
  unfold overridePath
  cases h : (known_paths.filter (fun np => name = np.1)).head? with
  | none =>
    refine ⟨"proc-blocks/" ++ name, ?_⟩
    show joinPath (joinPath dir "proc-blocks") name =
      dir ++ "/" ++ ("proc-blocks/" ++ name)
    simp only [joinPath, String.append_assoc]
    rw [← String.append_assoc "proc-blocks" "/" name]
    rfl
  | some np => exact ⟨np.2, rfl⟩

/-- Auxiliary: one step of the override loop. -/
theorem overridesLoop_cons (dir : String) (hd : String × Dependency)
    (t acc : List (String × Dependency)) :
    overridesLoop dir (hd :: t) acc =
      overridesLoop dir t
        (if ¬ strStartsWith hd.1 "hotg-" ∧ ¬ (hd.2.gitOf = some REPO) then acc
         else insertSorted hd.1 (path_dependency (overridePath dir hd.1)) acc) :=
  rfl

/-- Auxiliary: the override loop preserves accumulated keys. -/
theorem overridesLoop_preserves (dir : String)
    (deps : List (String × Dependency)) :
    ∀ (acc : List (String × Dependency)) (k : String),
      containsKey acc k = true →
      containsKey (overridesLoop dir deps acc) k = true := by
  induction deps with
  | nil => intro acc k h; exact h
  | cons hd t ih =>
    intro acc k h
    rw [overridesLoop_cons]
    apply ih
    split
    · exact h
    · rw [containsKey_insertSorted]
      simp [h]

/-- Auxiliary: the override loop records every first-party dependency. -/
theorem overridesLoop_inserts (dir : String)
    (deps : List (String × Dependency)) :
    ∀ (acc : List (String × Dependency)) (k : String) (dep : Dependency),
      (k, dep) ∈ deps →
      (strStartsWith k "hotg-" = true ∨ dep.gitOf = some REPO) →
      containsKey (overridesLoop dir deps acc) k = true := by
  induction deps with
  | nil => intro acc k dep hmem; cases hmem
  | cons hd t ih =>
    intro acc k dep hmem hfp
    rw [overridesLoop_cons]
    rcases List.mem_cons.mp hmem with heq | hmemt
    · rw [← heq]
      have hcond : ¬ (¬ strStartsWith k "hotg-" ∧ ¬ (dep.gitOf = some REPO)) := by
        rcases hfp with h | h <;> simp [h]
      rw [if_neg (by simpa [← heq] using hcond)]
      apply overridesLoop_preserves
      rw [containsKey_insertSorted]
      simp [← heq]
    · exact ih _ k dep hmemt hfp

/-- Auxiliary: every value the override loop inserts is a filesystem path
under the override directory. -/
theorem overridesLoop_shape (dir : String)
    (deps : List (String × Dependency)) :
    ∀ (acc : List (String × Dependency)),
      (∀ p ∈ acc, ∃ rel, p.2 = path_dependency (dir ++ "/" ++ rel)) →
      ∀ p ∈ overridesLoop dir deps acc,
        ∃ rel, p.2 = path_dependency (dir ++ "/" ++ rel) := by
  induction deps with
  | nil => intro acc hacc; exact hacc
  | cons hd t ih =>
    intro acc hacc
    rw [overridesLoop_cons]
    apply ih
    intro p hp
    split at hp
    · exact hacc p hp
    · rcases mem_insertSorted _ _ _ _ hp with he | hold
      · obtain ⟨rel, hrel⟩ := overridePath_under dir hd.1
        exact ⟨rel, by rw [he, hrel]⟩
      · exact hacc p hold

/-- Auxiliary: every value of the full overrides map is a path under the
override directory. -/
theorem buildOverrides_shape (dir : String)
    (deps : List (String × Dependency)) (p : String × Dependency)
    (hp : p ∈ buildOverrides dir deps) :
    ∃ rel, p.2 = path_dependency (dir ++ "/" ++ rel) := by
  unfold buildOverrides at hp
  rcases mem_insertSorted _ _ _ _ hp with he | hp2
  · refine ⟨"proc-blocks/proc-blocks", ?_⟩
    rw [he]
    show path_dependency (joinPath (joinPath dir "proc-blocks") "proc-blocks") =
      path_dependency (dir ++ "/" ++ "proc-blocks/proc-blocks")
    simp only [joinPath, String.append_assoc]
    rfl
  · rcases mem_insertSorted _ _ _ _ hp2 with he | hp3
    · refine ⟨"crates/rune-core", ?_⟩
      rw [he]
      show path_dependency (joinPath (joinPath dir "crates") "rune-core") =
        path_dependency (dir ++ "/" ++ "crates/rune-core")
      simp only [joinPath, String.append_assoc]
      rfl
    · exact overridesLoop_shape dir deps [] (by simp) p hp3

/-- Auxiliary: the overrides map has an entry for every first-party
dependency of the manifest. -/
theorem buildOverrides_contains_first_party (dir : String)
    (deps : List (String × Dependency)) (k : String) (dep : Dependency)
    (hmem : (k, dep) ∈ deps)
    (hfp : strStartsWith k "hotg-" = true ∨ dep.gitOf = some REPO) :
    containsKey (buildOverrides dir deps) k = true := by
  unfold buildOverrides
  rw [containsKey_insertSorted, containsKey_insertSorted]
  simp [overridesLoop_inserts dir deps [] k dep hmem hfp]

/-- Auxiliary: looking up any key of the overrides map in the emitted patch
table yields a path dependency under the override directory. -/
theorem patchTable_lookup_under (dir : String)
    (deps : List (String × Dependency)) (k : String)
    (h : containsKey (buildOverrides dir deps) k = true) :
    ∃ rel, lookupAL (extendMap [] (buildOverrides dir deps)) k =
      some (path_dependency (dir ++ "/" ++ rel)) := by
  have hck := containsKey_extendMap_right _ [] _ h
  unfold containsKey at hck
  obtain ⟨v, hv⟩ := Option.isSome_iff_exists.mp hck
  have hmemv := lookupAL_mem _ _ _ hv
  rcases mem_extendMap _ [] _ hmemv with h0 | hov
  · cases h0
  · obtain ⟨rel, hrel⟩ := buildOverrides_shape dir deps _ hov
    exact ⟨rel, by rw [hv]; exact congrArg some hrel⟩

/-- Auxiliary: the dependency set is the proc-block fold over the five base
entries. -/
theorem dependencies_eq_foldl (pbs : List ProcBlock) (cur : String) :
    dependencies pbs cur =
      pbs.foldl
        (fun deps pb =>
          insertSorted pb.name
            (.detailed (proc_block_dependency pb.path cur)) deps)
        (dependencies [] cur) :=
  rfl

/-- Auxiliary: the proc-block fold preserves keys of the base dependency
set. -/
theorem containsKey_dependencies_foldl (cur : String) (pbs : List ProcBlock) :
    ∀ (acc : List (String × Dependency)) (k : String),
      containsKey acc k = true →
      containsKey
        (pbs.foldl
          (fun deps pb =>
            insertSorted pb.name
              (.detailed (proc_block_dependency pb.path cur)) deps)
          acc) k = true := by
  induction pbs with
  | nil => intro acc k h; exact h
  | cons hd t ih =>
    intro acc k h
    show containsKey
      (t.foldl _ (insertSorted hd.name
        (.detailed (proc_block_dependency hd.path cur)) acc)) k = true
    apply ih
    rw [containsKey_insertSorted]
    simp [h]

/-- C9: whenever `repo_override_dir` is set, the emitted manifest carries a
`[patch.crates-io]` table and a patch table for the canonical repo URL; the
two tables are identical, they map every first-party dependency of the
manifest (name starting with `hotg-`, or git source equal to the canonical
repo) to a local filesystem path under the override directory, and in
particular `hotg-rune-core`, `hotg-rune-proc-blocks` and
`hotg-runicos-base-wasm` are all redirected under it. -/
theorem c9_patch_tables_redirect_first_party (pbs : List ProcBlock)
    (ctx : BuildContext) (dir : String) :
    ∃ tbl,
      lookupAL (run_manifest pbs ctx ⟨some dir⟩).patch "crates-io" = some tbl ∧
      lookupAL (run_manifest pbs ctx ⟨some dir⟩).patch
        "https://github.com/hotg-ai/rune" = some tbl ∧
      (∀ entry ∈ (run_manifest pbs ctx ⟨some dir⟩).dependencies,
        (strStartsWith entry.1 "hotg-" = true ∨ entry.2.gitOf = some REPO) →
        ∃ rel, lookupAL tbl entry.1 =
          some (path_dependency (dir ++ "/" ++ rel))) ∧
      (∀ crate ∈ (["hotg-rune-core", "hotg-rune-proc-blocks",
          "hotg-runicos-base-wasm"] : List String),
        ∃ rel, lookupAL tbl crate =
          some (path_dependency (dir ++ "/" ++ rel))) := by
  refine ⟨extendMap []
    (buildOverrides dir (dependencies pbs ctx.current_directory)),
    rfl, rfl, ?_, ?_⟩
  · intro entry hmem hfp
    obtain ⟨k, dep⟩ := entry
    exact patchTable_lookup_under dir _ k
      (buildOverrides_contains_first_party dir _ k dep hmem hfp)
  · intro crate hcrate
    apply patchTable_lookup_under
    have hbase : ∀ c : String,
        containsKey (dependencies [] ctx.current_directory) c = true →
        containsKey (dependencies pbs ctx.current_directory) c = true := by
      intro c hc
      rw [dependencies_eq_foldl]
      exact containsKey_dependencies_foldl _ pbs _ c hc
    have hc : crate = "hotg-rune-core" ∨ crate = "hotg-rune-proc-blocks" ∨
        crate = "hotg-runicos-base-wasm" := by simpa using hcrate
    rcases hc with h | h | h
    · subst h
      unfold buildOverrides
      rw [containsKey_insertSorted, containsKey_insertSorted]
      rw [show decide ("hotg-rune-core" = "hotg-rune-core") = true from rfl]
      simp
    · subst h
      unfold buildOverrides
      rw [containsKey_insertSorted]
      rw [show decide ("hotg-rune-proc-blocks" = "hotg-rune-proc-blocks") = true
        from rfl]
      simp
    · subst h
      have hk : containsKey (dependencies pbs ctx.current_directory)
          "hotg-runicos-base-wasm" = true := hbase _ (by rfl)
      unfold containsKey at hk
      obtain ⟨v, hv⟩ := Option.isSome_iff_exists.mp hk
      have hmem := lookupAL_mem _ _ _ hv
      exact buildOverrides_contains_first_party dir _ _ v hmem
        (Or.inl (by rfl))

/-- C9 witness: with no proc blocks, the example context and override
directory `/tmp/rune`, the `crates-io` patch table exists and redirects
`hotg-runicos-base-wasm` to a path under `/tmp/rune`. -/
theorem c9_patch_tables_redirect_first_party_witness :
    ∃ tbl,
      lookupAL (run_manifest [] exampleContext ⟨some "/tmp/rune"⟩).patch
        "crates-io" = some tbl ∧
      ∃ rel, lookupAL tbl "hotg-runicos-base-wasm" =
        some (path_dependency ("/tmp/rune" ++ "/" ++ rel)) := by
  obtain ⟨tbl, h1, h2, h3, h4⟩ :=
    c9_patch_tables_redirect_first_party [] exampleContext "/tmp/rune"
  exact ⟨tbl, h1, h4 "hotg-runicos-base-wasm" (by simp)⟩

end Rune
